import Mathlib

/-!
Verification of the mimeparse Go library (src/trunk/go/mimeparse.go).

The Go code is shallowly embedded: strings are handled through their
character lists, Go maps (built by in-order insertion) are association
lists with overwrite-on-insert, and `strconv.Atof` is modelled by an
exact-rational parser of Go's float syntax together with the special
spellings `nan`, `inf`, `infinity` (the `GoFloat` type).  Overflow and
underflow rounding of binary floating point is not modelled: a decimal
literal denotes its exact rational value.

Only ASCII case folding and ASCII whitespace are modelled for
`strings.ToLower` and `strings.TrimSpace`; all inputs of interest are
ASCII.
-/

set_option maxRecDepth 10000

namespace Mimeparse

/-- ASCII fragment of the whitespace test used by Go's strings.TrimSpace:
space, tab, newline, vertical tab, form feed, carriage return. -/
def goIsSpace (c : Char) : Bool :=
  c.toNat == 32 || c.toNat == 9 || c.toNat == 10 || c.toNat == 11 ||
    c.toNat == 12 || c.toNat == 13

/-- Go strings.TrimSpace on a character list. -/
def goTrim (l : List Char) : List Char :=
  ((l.dropWhile goIsSpace).reverse.dropWhile goIsSpace).reverse

/-- ASCII case folding of a single character, as Go's strings.ToLower acts
on ASCII: code points 65..90 are shifted up by 32. -/
def asciiLower (c : Char) : Char :=
  if 65 ≤ c.toNat ∧ c.toNat ≤ 90 then Char.ofNat (c.toNat + 32) else c

/-- Go strings.ToLower (ASCII fragment) on a character list. -/
def goToLowerL (l : List Char) : List Char := l.map asciiLower

/-- Go strings.Split(s, sep, -1) for a one-character separator. -/
def goSplitChar (sep : Char) : List Char → List (List Char)
  | [] => [[]]
  | c :: rest =>
    if c == sep then [] :: goSplitChar sep rest
    else
      match goSplitChar sep rest with
      | [] => [[c]]
      | g :: gs => (c :: g) :: gs

/-- Go strings.Split(s, sep, 2) for a one-character separator. -/
def goSplitChar2 (sep : Char) : List Char → List (List Char)
  | [] => [[]]
  | c :: rest =>
    if c == sep then [[], rest]
    else
      match goSplitChar2 sep rest with
      | [] => [[c]]
      | g :: gs => (c :: g) :: gs

/-- The ht helper of mimeparse.go: head and tail of a list of strings. -/
def ht (l : List (List Char)) : List Char × List (List Char) :=
  match l with
  | [] => ([], [])
  | [a] => (a, [])
  | a :: rest => (a, rest)

/-- Insertion into a Go map modelled as an association list: an existing
key is overwritten in place, a new key is appended. -/
def mapInsert (m : List (String × String)) (k v : String) : List (String × String) :=
  match m with
  | [] => [(k, v)]
  | (k0, v0) :: rest => if k0 == k then (k, v) :: rest else (k0, v0) :: mapInsert rest k v

/-- Go map lookup with the comma-ok form. -/
def mapLookup (m : List (String × String)) (k : String) : Option String :=
  match m with
  | [] => none
  | (k0, v0) :: rest => if k0 == k then some v0 else mapLookup rest k

/-- Go map lookup in value position: a missing key yields the zero value. -/
def mapLookupD (m : List (String × String)) (k : String) : String :=
  (mapLookup m k).getD ""

/-- The Mime struct of mimeparse.go. -/
structure Mime where
  mtype : String
  subtype : String
  params : List (String × String)
deriving DecidableEq, Inhabited, Repr

/-- One iteration of the parameter loop of ParseMimeType. -/
def parseParam (m : List (String × String)) (s : List Char) : List (String × String) :=
  match goSplitChar2 '=' s with
  | [k, v] => mapInsert m (goToLowerL (goTrim k)).asString (goTrim v).asString
  | other => mapInsert m (goToLowerL (goTrim (other.headD []))).asString ""

/-- The parameter map built by ParseMimeType for an input string. -/
def mimeParams (s : String) : List (String × String) :=
  ((ht (goSplitChar ';' s.data)).2).foldl parseParam []

/-- The full_type value of ParseMimeType before lower-casing: the part of
the input before the first semicolon. -/
def rawHead (s : String) : List Char := (ht (goSplitChar ';' s.data)).1

/-- The head of ParseMimeType after lower-casing and the bare-star
rewrite, ready to be split on the slash. -/
def normHead (s : String) : List Char :=
  let f := goToLowerL (rawHead s)
  if goTrim f = ['*'] then "*/*".data else f

/-- ParseMimeType of mimeparse.go.  The second component is the error
flag; on error Go returns the Mime value {"", "", {"q": "0"}} together
with the error. -/
def ParseMimeType (s : String) : Mime × Bool :=
  match goSplitChar '/' (normHead s) with
  | [maintype, subtype] =>
    (⟨(goTrim maintype).asString, (goTrim subtype).asString, mimeParams s⟩, false)
  | _ => (⟨"", "", [("q", "0")]⟩, true)

/-- A Go float value as produced by strconv.Atof: NaN, a signed infinity,
or (idealised) an exact rational. -/
inductive GoFloat where
  | nan : GoFloat
  | inf : Bool → GoFloat
  | val : ℚ → GoFloat
deriving DecidableEq, Repr

/-- Numeric value of a digit run (callers pass digit characters only). -/
def digitsVal (l : List Char) : ℕ :=
  l.foldl (fun a c => a * 10 + (c.toNat - 48)) 0

/-- Digit test for the float syntax. -/
def isDigitC (c : Char) : Bool := 48 ≤ c.toNat && c.toNat ≤ 57

/-- Exact-rational parse of Go's decimal float syntax:
[sign] digits [. digits] [(e|E) [sign] digits], at least one mantissa
digit required.  The value is sign * mantissa * 10^exponent, built with
mkRat so that it evaluates by kernel reduction. -/
def parseDec (l : List Char) : Option ℚ :=
  let sl : ℤ × List Char :=
    match l with
    | '+' :: r => (1, r)
    | '-' :: r => (-1, r)
    | r => (1, r)
  let ip := sl.2.takeWhile isDigitC
  let l2 := sl.2.dropWhile isDigitC
  let fl : List Char × List Char :=
    match l2 with
    | '.' :: r => (r.takeWhile isDigitC, r.dropWhile isDigitC)
    | r => ([], r)
  if ip.isEmpty && fl.1.isEmpty then none
  else
    let mantNum : ℤ := (digitsVal ip * 10 ^ fl.1.length + digitsVal fl.1 : ℕ)
    match fl.2 with
    | [] => some (mkRat (sl.1 * mantNum) (10 ^ fl.1.length))
    | e :: r =>
      if e == 'e' || e == 'E' then
        let es : Bool × List Char :=
          match r with
          | '+' :: rr => (false, rr)
          | '-' :: rr => (true, rr)
          | rr => (false, rr)
        let ed := es.2.takeWhile isDigitC
        if ed.isEmpty || !(es.2.dropWhile isDigitC).isEmpty then none
        else if es.1 then
          some (mkRat (sl.1 * mantNum) (10 ^ fl.1.length * 10 ^ digitsVal ed))
        else some (mkRat (sl.1 * mantNum * 10 ^ digitsVal ed) (10 ^ fl.1.length))
      else none

/-- strconv.Atof of old Go: the case-insensitive specials nan, inf,
infinity (with optional sign for the infinities), else the decimal
syntax.  Range errors of the real implementation are not modelled. -/
def Atof (s : String) : Option GoFloat :=
  let l := goToLowerL s.data
  if l = "nan".data then some GoFloat.nan
  else if l = "inf".data ∨ l = "+inf".data ∨ l = "infinity".data ∨ l = "+infinity".data then
    some (GoFloat.inf false)
  else if l = "-inf".data ∨ l = "-infinity".data then some (GoFloat.inf true)
  else (parseDec s.data).map GoFloat.val

/-- strconv.Atof with the error ignored: Go then yields the zero value. -/
def AtofOr0 (s : String) : GoFloat :=
  (Atof s).getD (GoFloat.val 0)

/-- Go float strict greater-than: NaN compares false against anything. -/
def GoFloat.gt : GoFloat → GoFloat → Bool
  | .nan, _ => false
  | _, .nan => false
  | .inf false, .inf false => false
  | .inf false, _ => true
  | .inf true, _ => false
  | .val _, .inf false => false
  | .val _, .inf true => true
  | .val x, .val y => decide (y < x)

/-- Go float strict less-than. -/
def GoFloat.lt (a b : GoFloat) : Bool := GoFloat.gt b a

/-- ParseMediaRange of mimeparse.go: ParseMimeType plus normalisation of
the q parameter. -/
def ParseMediaRange (s : String) : Mime × Bool :=
  match ParseMimeType s with
  | (parsed, true) => (parsed, true)
  | (parsed, false) =>
    match mapLookup parsed.params "q" with
    | none => (⟨parsed.mtype, parsed.subtype, mapInsert parsed.params "q" "1"⟩, false)
    | some q =>
      match Atof q with
      | none => (⟨parsed.mtype, parsed.subtype, mapInsert parsed.params "q" "1"⟩, false)
      | some v =>
        if v.gt (GoFloat.val 1) || v.lt (GoFloat.val 0) then
          (⟨parsed.mtype, parsed.subtype, mapInsert parsed.params "q" "1"⟩, false)
        else (parsed, false)

/-- The wildcard-aware compatibility test of FitnessAndQuality. -/
def mimeCompat (r target : Mime) : Bool :=
  (r.mtype == target.mtype || r.mtype == "*" || target.mtype == "*") &&
  (r.subtype == target.subtype || r.subtype == "*" || target.subtype == "*")

/-- The pmatches count of FitnessAndQuality: parameters of the candidate
other than q that the range carries with an equal value. -/
def paramMatches (target r : Mime) : ℕ :=
  target.params.countP (fun kv => (!(kv.1 == "q")) && (mapLookup r.params kv.1 == some kv.2))

/-- The per-range fitness computed inside the loop of FitnessAndQuality,
with the increments in source order. -/
def rangeFitness (target r : Mime) : ℤ :=
  let f1 : ℤ := 0 + 1
  let f2 : ℤ := f1 + (paramMatches target r : ℤ)
  let f3 : ℤ := if r.subtype == target.subtype then f2 + 10 else f2
  if r.mtype == target.mtype then f3 + 100 else f3

/-- One iteration of the loop of FitnessAndQuality over the parsed
ranges. -/
def fqStep (target : Mime) (best : ℤ × GoFloat) (r : Mime) : ℤ × GoFloat :=
  if mimeCompat r target then
    if rangeFitness target r > best.1 then
      (rangeFitness target r, AtofOr0 (mapLookupD r.params "q"))
    else best
  else best

/-- FitnessAndQuality of mimeparse.go. -/
def FitnessAndQuality (mimetype : String) (parsedRanges : List Mime) : ℤ × GoFloat :=
  parsedRanges.foldl (fqStep ((ParseMediaRange mimetype).1)) (-1, GoFloat.val 0)

/-- QualityParsed of mimeparse.go. -/
def QualityParsed (mimetype : String) (parsedRanges : List Mime) : GoFloat :=
  (FitnessAndQuality mimetype parsedRanges).2

/-- ParseHeader of mimeparse.go: split on commas, parse every piece as a
media range, ignore the per-piece errors. -/
def ParseHeader (header : String) : List Mime :=
  (goSplitChar ',' header.data).map (fun r => (ParseMediaRange r.asString).1)

/-- Quality of mimeparse.go. -/
def Quality (mimetype : String) (ranges : String) : GoFloat :=
  QualityParsed mimetype (ParseHeader ranges)

/-- One iteration of the loop of BestMatch over the supported types. -/
def bmStep (parsedHeader : List Mime) (best : GoFloat × String) (mime : String) :
    GoFloat × String :=
  if ((FitnessAndQuality mime parsedHeader).2).gt best.1 then
    ((FitnessAndQuality mime parsedHeader).2, mime)
  else best

/-- BestMatch of mimeparse.go. -/
def BestMatch (supported : List String) (header : String) : String :=
  let parsedHeader := ParseHeader header
  if supported.isEmpty then ""
  else (supported.foldl (bmStep parsedHeader) (GoFloat.val 0, "")).2

/-- The fitness formula exactly as the spec states it (claim C1): no
base point for passing the compatibility test. -/
def specFitness (target r : Mime) : ℤ :=
  (if r.mtype == target.mtype then 100 else 0) +
    (if r.subtype == target.subtype then 10 else 0) + (paramMatches target r : ℤ)

/-- The part of the input before the first semicolon, phrased as the spec
does. -/
def specRawHead (s : String) : List Char := s.data.takeWhile (fun c => !(c == ';'))

/-- The head token as the spec describes it: the part before the first
semicolon, with a bare star after trimming rewritten to star-slash-star. -/
def specHead (s : String) : List Char :=
  if goTrim (specRawHead s) = ['*'] then "*/*".data else specRawHead s

/-- Membership of a Go float in the closed unit interval. -/
def inUnit : GoFloat → Bool
  | .val x => decide (0 ≤ x ∧ x ≤ 1)
  | _ => false

/-! ### Generic lemmas about the embedded Go primitives -/

theorem asString_eq_empty_iff (l : List Char) : l.asString = "" ↔ l = [] := by
  constructor
  · intro h
    have h2 := congrArg String.data h
    simpa [List.asString] using h2
  · rintro rfl
    rfl

theorem mapLookup_mapInsert_self (m : List (String × String)) (k v : String) :
    mapLookup (mapInsert m k v) k = some v := by
  induction m with
  | nil => simp [mapInsert, mapLookup]
  | cons kv rest ih =>
    obtain ⟨k0, v0⟩ := kv
    by_cases h : (k0 == k) = true
    · simp [mapInsert, mapLookup, h]
    · simp only [mapInsert, mapLookup, h]
      simp only [Bool.false_eq_true, if_false, mapLookup, h, ih]

theorem rangeFitness_pos (t r : Mime) : 1 ≤ rangeFitness t r := by
  simp only [rangeFitness]
  split_ifs <;> omega

theorem fqStep_fst_le (t : Mime) (best : ℤ × GoFloat) (r : Mime) :
    best.1 ≤ (fqStep t best r).1 := by
  simp only [fqStep]
  split_ifs with h1 h2
  · simpa using le_of_lt h2
  · exact le_refl _
  · exact le_refl _

theorem foldl_fqStep_fst_le (t : Mime) (l : List Mime) (best : ℤ × GoFloat) :
    best.1 ≤ (l.foldl (fqStep t) best).1 := by
  induction l generalizing best with
  | nil => exact le_refl _
  | cons r rest ih =>
    rw [List.foldl_cons]
    exact le_trans (fqStep_fst_le t best r) (ih (fqStep t best r))

theorem foldl_fqStep_no_update (t : Mime) (l : List Mime) (best : ℤ × GoFloat)
    (h : ∀ r ∈ l, mimeCompat r t = true → rangeFitness t r ≤ best.1) :
    l.foldl (fqStep t) best = best := by
  induction l with
  | nil => rfl
  | cons r rest ih =>
    have hstep : fqStep t best r = best := by
      simp only [fqStep]
      split_ifs with h1 h2
      · exact absurd (h r (by simp) h1) (by omega)
      · rfl
      · rfl
    rw [List.foldl_cons, hstep]
    exact ih (fun r2 hr2 => h r2 (by simp [hr2]))

theorem foldl_fqStep_fst_lt (t : Mime) (l : List Mime) (best : ℤ × GoFloat) (F : ℤ)
    (hb : best.1 < F) (h : ∀ r ∈ l, mimeCompat r t = true → rangeFitness t r < F) :
    (l.foldl (fqStep t) best).1 < F := by
  induction l generalizing best with
  | nil => simpa using hb
  | cons r rest ih =>
    rw [List.foldl_cons]
    have hstep : (fqStep t best r).1 < F := by
      simp only [fqStep]
      split_ifs with h1 h2
      · exact h r (by simp) h1
      · exact hb
      · exact hb
    exact ih (fqStep t best r) hstep (fun r2 hr2 hc2 => h r2 (by simp [hr2]) hc2)

theorem foldl_fqStep_snd_cases (t : Mime) (l : List Mime) (best : ℤ × GoFloat) :
    (l.foldl (fqStep t) best).2 = best.2 ∨
      ∃ r ∈ l, (l.foldl (fqStep t) best).2 = AtofOr0 (mapLookupD r.params "q") := by
  induction l generalizing best with
  | nil => left; rfl
  | cons r rest ih =>
    rw [List.foldl_cons]
    rcases ih (fqStep t best r) with h | ⟨r2, hr2, he⟩
    · rw [h]
      simp only [fqStep]
      split_ifs with h1 h2
      · right
        exact ⟨r, by simp, rfl⟩
      · left; rfl
      · left; rfl
    · right
      exact ⟨r2, by simp [hr2], he⟩

theorem goFloat_gt_trans {a b c : GoFloat} (h1 : a.gt b = true) (h2 : b.gt c = true) :
    a.gt c = true := by
  rcases a with _ | sa | xa <;> rcases b with _ | sb | xb <;> rcases c with _ | sc | xc <;>
      first
        | rfl
        | (try cases sa) <;> (try cases sb) <;> (try cases sc) <;> simp_all [GoFloat.gt]
  exact lt_trans h2 h1

/-! ### Lemmas about the parsers -/

theorem parseMimeType_err_of_len {s : String}
    (h : (goSplitChar '/' (normHead s)).length ≠ 2) :
    ParseMimeType s = (⟨"", "", [("q", "0")]⟩, true) := by
  simp only [ParseMimeType]
  rcases hl : goSplitChar '/' (normHead s) with _ | ⟨a, _ | ⟨b, _ | ⟨c, rest⟩⟩⟩
  · rfl
  · rfl
  · exact absurd (by simp [hl]) h
  · rfl

theorem parseMimeType_ok_of_len {s : String} {a b : List Char}
    (hl : goSplitChar '/' (normHead s) = [a, b]) :
    ParseMimeType s = (⟨(goTrim a).asString, (goTrim b).asString, mimeParams s⟩, false) := by
  simp only [ParseMimeType, hl]

theorem parseMediaRange_err_of_len {s : String}
    (h : (goSplitChar '/' (normHead s)).length ≠ 2) :
    ParseMediaRange s = (⟨"", "", [("q", "0")]⟩, true) := by
  simp only [ParseMediaRange, parseMimeType_err_of_len h]

theorem atof_one : Atof "1" = some (GoFloat.val 1) := by decide

theorem atof_zero : Atof "0" = some (GoFloat.val 0) := by decide

/-- The q entry of any value produced by ParseMediaRange (also the error
sentinel) reads back, through Atof with ignored error, as NaN or as a
rational in the closed unit interval. -/
theorem q_of_parseMediaRange (s : String) :
    AtofOr0 (mapLookupD ((ParseMediaRange s).1).params "q") = GoFloat.nan ∨
      ∃ x : ℚ, AtofOr0 (mapLookupD ((ParseMediaRange s).1).params "q") = GoFloat.val x ∧
        0 ≤ x ∧ x ≤ 1 := by
  simp only [ParseMediaRange]
  rcases hp : ParseMimeType s with ⟨m0, err⟩
  cases err
  · rcases hq : mapLookup m0.params "q" with _ | v
    · right
      refine ⟨1, ?_, by norm_num, le_refl 1⟩
      simp [hq, mapLookupD, mapLookup_mapInsert_self, AtofOr0, atof_one]
    · rcases hA : Atof v with _ | f
      · right
        refine ⟨1, ?_, by norm_num, le_refl 1⟩
        simp [hq, hA, mapLookupD, mapLookup_mapInsert_self, AtofOr0, atof_one]
      · by_cases hout : (f.gt (GoFloat.val 1) || f.lt (GoFloat.val 0)) = true
        · right
          refine ⟨1, ?_, by norm_num, le_refl 1⟩
          simp only [hq, hA]
          rw [if_pos hout]
          simp [mapLookupD, mapLookup_mapInsert_self, AtofOr0, atof_one]
        · simp only [hq, hA]
          rw [if_neg hout]
          have hval : AtofOr0 (mapLookupD m0.params "q") = f := by
            simp [mapLookupD, hq, AtofOr0, hA]
          rw [hval]
          have hfalse : (f.gt (GoFloat.val 1) || f.lt (GoFloat.val 0)) = false :=
            Bool.eq_false_iff.mpr hout
          obtain ⟨hgt, hlt⟩ := Bool.or_eq_false_iff.mp hfalse
          rcases f with _ | sf | x
          · left; rfl
          · cases sf <;> simp [GoFloat.gt, GoFloat.lt] at hgt hlt
          · right
            refine ⟨x, rfl, ?_, ?_⟩
            · simp only [GoFloat.lt, GoFloat.gt, decide_eq_false_iff_not, not_lt] at hlt
              exact hlt
            · simp only [GoFloat.gt, decide_eq_false_iff_not, not_lt] at hgt
              exact hgt
  · have hm0 : m0 = ⟨"", "", [("q", "0")]⟩ := by
      revert hp
      simp only [ParseMimeType]
      rcases hl : goSplitChar '/' (normHead s) with _ | ⟨a, _ | ⟨b, _ | ⟨c, rest⟩⟩⟩ <;>
        intro hp2 <;> simp_all
    right
    refine ⟨0, ?_, le_refl 0, by norm_num⟩
    subst hm0
    simp [mapLookupD, mapLookup, AtofOr0, atof_zero]

theorem mem_parseHeader {hdr : String} {r : Mime} (hr : r ∈ ParseHeader hdr) :
    ∃ piece : String, r = (ParseMediaRange piece).1 := by
  simp only [ParseHeader, List.mem_map] at hr
  obtain ⟨l, _, rfl⟩ := hr
  exact ⟨l.asString, rfl⟩

/-! ### Character-level lemmas for the head analysis -/

theorem char_toNat_inj {a b : Char} (h : a.toNat = b.toNat) : a = b := by
  rw [← Char.ofNat_toNat a, ← Char.ofNat_toNat b, h]

theorem asciiLower_toNat (c : Char) :
    (asciiLower c).toNat =
      if 65 ≤ c.toNat ∧ c.toNat ≤ 90 then c.toNat + 32 else c.toNat := by
  simp only [asciiLower]
  split_ifs with h
  · obtain ⟨h1, h2⟩ := h
    set n := c.toNat with hn
    interval_cases n <;> decide
  · rfl

theorem char_beq_toNat (a b : Char) : (a == b) = (a.toNat == b.toNat) := by
  rw [Bool.eq_iff_iff]
  simp only [beq_iff_eq]
  exact ⟨fun h => by rw [h], fun h => char_toNat_inj h⟩

theorem asciiLower_beq_slash (c : Char) : (asciiLower c == '/') = (c == '/') := by
  rw [char_beq_toNat, char_beq_toNat, asciiLower_toNat]
  have h47 : ('/').toNat = 47 := rfl
  rw [h47]
  split_ifs with h
  · rw [Bool.eq_iff_iff]
    simp only [beq_iff_eq]
    omega
  · rfl

theorem asciiLower_eq_star (c : Char) : asciiLower c = '*' ↔ c = '*' := by
  constructor
  · intro h
    apply char_toNat_inj
    have h2 := congrArg Char.toNat h
    rw [asciiLower_toNat] at h2
    have hs : ('*').toNat = 42 := rfl
    rw [hs] at h2 ⊢
    split_ifs at h2 with h3
    · omega
    · exact h2
  · rintro rfl
    decide

theorem goIsSpace_asciiLower (c : Char) : goIsSpace (asciiLower c) = goIsSpace c := by
  simp only [goIsSpace, asciiLower_toNat]
  split_ifs with h
  · rw [Bool.eq_iff_iff]
    simp only [Bool.or_eq_true, beq_iff_eq]
    omega
  · rfl

theorem ht_fst_cons (a : List Char) (rest : List (List Char)) : (ht (a :: rest)).1 = a := by
  cases rest <;> rfl

theorem ht_fst_goSplitChar (sep : Char) (l : List Char) :
    (ht (goSplitChar sep l)).1 = l.takeWhile (fun c => !(c == sep)) := by
  induction l with
  | nil => rfl
  | cons c rest ih =>
    simp only [goSplitChar]
    by_cases h : (c == sep) = true
    · rw [if_pos h]
      rw [ht_fst_cons]
      simp [List.takeWhile_cons, h]
    · rw [if_neg h]
      rcases hr : goSplitChar sep rest with _ | ⟨g, gs⟩
      · rw [hr] at ih
        simp only [ht] at ih
        rw [ht_fst_cons]
        simp [List.takeWhile_cons, h, ← ih]
      · rw [hr] at ih
        rw [ht_fst_cons] at ih
        rw [ht_fst_cons]
        simp [List.takeWhile_cons, h, ih]

theorem length_goSplitChar (sep : Char) (l : List Char) :
    (goSplitChar sep l).length = l.countP (fun c => c == sep) + 1 := by
  induction l with
  | nil => simp [goSplitChar, List.countP_nil]
  | cons c rest ih =>
    simp only [goSplitChar]
    by_cases h : (c == sep) = true
    · rw [if_pos h]
      simp [List.countP_cons, h, ih]
    · rw [if_neg h]
      rcases hr : goSplitChar sep rest with _ | ⟨g, gs⟩
      · rw [hr] at ih
        simp at ih
      · rw [hr] at ih
        simp only [List.length_cons] at ih ⊢
        simp [List.countP_cons, h]
        omega

theorem goTrim_goToLowerL (l : List Char) :
    goTrim (goToLowerL l) = goToLowerL (goTrim l) := by
  have hp : (goIsSpace ∘ asciiLower) = goIsSpace := funext goIsSpace_asciiLower
  simp only [goTrim, goToLowerL]
  rw [List.dropWhile_map, hp, ← List.map_reverse, List.dropWhile_map, hp, ← List.map_reverse]

theorem goToLowerL_eq_star (l : List Char) : goToLowerL l = ['*'] ↔ l = ['*'] := by
  cases l with
  | nil => simp [goToLowerL]
  | cons c rest =>
    cases rest with
    | nil => simp [goToLowerL, asciiLower_eq_star]
    | cons d rest2 => simp [goToLowerL]

theorem countP_goToLowerL_slash (l : List Char) :
    (goToLowerL l).countP (fun c => c == '/') = l.countP (fun c => c == '/') := by
  simp only [goToLowerL, List.countP_map]
  congr 1
  funext c
  simpa [Function.comp] using asciiLower_beq_slash c

/-! ### Claims -/

/-- C1 (counterexample): against the single range text-agnostic "a/b" of an
"a/b" header, the per-range fitness the code computes for the candidate
"a/b" is 111, not the 110 the spec formula (100 + 10 + paramMatches with
no other term) predicts, because the code also adds 1 for passing the
compatibility test. -/
theorem fitness_missing_base_point :
    mimeCompat ((ParseHeader "a/b").headD default) ((ParseMediaRange "a/b").1) = true ∧
      rangeFitness ((ParseMediaRange "a/b").1) ((ParseHeader "a/b").headD default) = 111 ∧
      specFitness ((ParseMediaRange "a/b").1) ((ParseHeader "a/b").headD default) = 110 ∧
      (FitnessAndQuality "a/b" (ParseHeader "a/b")).1 = 111 := by decide

/-- C1 (amended): for every compatible range the per-range fitness is 1
(for passing the compatibility test) plus 100 for an equal major type,
plus 10 for an equal subtype, plus the count of matching non-q candidate
parameters — with no other term. -/
theorem fitness_formula_with_base (target r : Mime) (_h : mimeCompat r target = true) :
    rangeFitness target r =
      1 + (if r.mtype == target.mtype then 100 else 0) +
        (if r.subtype == target.subtype then 10 else 0) + (paramMatches target r : ℤ) := by
  simp only [rangeFitness]
  split_ifs <;> omega

/-- Witness for the amended C1 at a concrete compatible pair. -/
theorem fitness_formula_with_base_witness :
    mimeCompat ⟨"text", "*", [("q", "0.3")]⟩ ⟨"text", "html", [("q", "1")]⟩ = true ∧
      rangeFitness ⟨"text", "html", [("q", "1")]⟩ ⟨"text", "*", [("q", "0.3")]⟩ = 101 :=
  ⟨by decide, by rw [fitness_formula_with_base _ _ (by decide)]; decide⟩

/-- C2 (counterexample): parseMimeType succeeds on "/x" although the
resulting major type is the empty string. -/
theorem parse_empty_major_type :
    (ParseMimeType "/x").2 = false ∧ (ParseMimeType "/x").1.mtype = "" := by decide

/-- C2 (amended): when parseMimeType's head splits on the slash into two
components each containing a non-whitespace character, the parse succeeds
and the major and sub types are non-empty. -/
theorem parse_nonblank_components_nonempty (s : String) (a b : List Char)
    (hl : goSplitChar '/' (normHead s) = [a, b])
    (ha : goTrim a ≠ []) (hb : goTrim b ≠ []) :
    (ParseMimeType s).2 = false ∧
      (ParseMimeType s).1.mtype ≠ "" ∧ (ParseMimeType s).1.subtype ≠ "" := by
  rw [parseMimeType_ok_of_len hl]
  refine ⟨rfl, ?_, ?_⟩
  · simpa [asString_eq_empty_iff] using ha
  · simpa [asString_eq_empty_iff] using hb

/-- Witness for the amended C2 at the input "a/b". -/
theorem parse_nonblank_components_nonempty_witness :
    goSplitChar '/' (normHead "a/b") = [['a'], ['b']] ∧
      ((ParseMimeType "a/b").2 = false ∧
        (ParseMimeType "a/b").1.mtype ≠ "" ∧ (ParseMimeType "a/b").1.subtype ≠ "") :=
  ⟨by decide,
    parse_nonblank_components_nonempty "a/b" ['a'] ['b'] (by decide) (by decide) (by decide)⟩

/-- C3 (counterexample): the malformed lone entry "bad" of a header is
judged compatible with the wildcard candidate and supplies the
returned fitness 1, not the claimed (-1, 0) contribution. -/
theorem malformed_entry_matches_wildcard_candidate :
    FitnessAndQuality "*/*" (ParseHeader "bad") = (1, GoFloat.val 0) ∧
      mimeCompat ((ParseHeader "bad").headD default) ((ParseMediaRange "*/*").1) = true ∧
      (FitnessAndQuality "*/*" (ParseHeader "bad")).1 ≠ -1 := by decide

/-- C3 (amended): a malformed entry parses to the sentinel with empty
types and q = "0"; it is compatible with exactly the candidates whose
parsed major type is "" or "*" and parsed subtype is "" or "*" (so it can
supply a fitness), and the quality it can supply is 0. -/
theorem malformed_entry_sentinel_compat (e : String)
    (hbad : (goSplitChar '/' (normHead e)).length ≠ 2) (t : Mime) :
    (ParseMediaRange e).1 = ⟨"", "", [("q", "0")]⟩ ∧
      mimeCompat ((ParseMediaRange e).1) t =
        ((t.mtype == "" || t.mtype == "*") && (t.subtype == "" || t.subtype == "*")) ∧
      AtofOr0 (mapLookupD ((ParseMediaRange e).1).params "q") = GoFloat.val 0 := by
  have h := parseMediaRange_err_of_len hbad
  rw [h]
  have hswap : ∀ u : String, ("" == u) = (u == "") := by
    intro u
    rw [Bool.eq_iff_iff]
    simp only [beq_iff_eq]
    exact eq_comm
  refine ⟨rfl, ?_, by decide⟩
  simp [mimeCompat, hswap]

/-- Witness for the amended C3 at the entry "bad" and a wildcard-major
candidate. -/
theorem malformed_entry_sentinel_compat_witness :
    (goSplitChar '/' (normHead "bad")).length ≠ 2 ∧
      ((ParseMediaRange "bad").1 = ⟨"", "", [("q", "0")]⟩ ∧
        mimeCompat ((ParseMediaRange "bad").1) ⟨"*", "html", []⟩ =
          ((("*" : String) == "" || ("*" : String) == "*") &&
            (("html" : String) == "" || ("html" : String) == "*")) ∧
        AtofOr0 (mapLookupD ((ParseMediaRange "bad").1).params "q") = GoFloat.val 0) :=
  ⟨by decide, malformed_entry_sentinel_compat "bad" (by decide) ⟨"*", "html", []⟩⟩

/-- C4 (counterexample): parseMediaRange preserves q = "nan" although its
value does not lie in the closed unit interval, instead of replacing it
by "1". -/
theorem q_nan_preserved :
    ParseMediaRange "a/b;q=nan" = (⟨"a", "b", [("q", "nan")]⟩, false) ∧
      Atof "nan" = some GoFloat.nan ∧
      inUnit (AtofOr0 "nan") = false ∧
      mapLookupD ((ParseMediaRange "a/b;q=nan").1).params "q" ≠ "1" := by decide

/-- C4 (amended): after a successful parse, a q parameter that is absent
or non-numeric, or whose value compares greater than 1 or less than 0
under Go float comparison, becomes exactly "1"; a q whose value compares
neither greater than 1 nor less than 0 (NaN included, since NaN compares
false against both bounds) is preserved unchanged. -/
theorem q_normalization_amended (s : String) (m0 : Mime)
    (h : ParseMimeType s = (m0, false)) :
    (mapLookup m0.params "q" = none →
        mapLookup ((ParseMediaRange s).1).params "q" = some "1") ∧
      (∀ v, mapLookup m0.params "q" = some v → Atof v = none →
        mapLookup ((ParseMediaRange s).1).params "q" = some "1") ∧
      (∀ v f, mapLookup m0.params "q" = some v → Atof v = some f →
        (f.gt (GoFloat.val 1) || f.lt (GoFloat.val 0)) = true →
        mapLookup ((ParseMediaRange s).1).params "q" = some "1") ∧
      (∀ v f, mapLookup m0.params "q" = some v → Atof v = some f →
        (f.gt (GoFloat.val 1) || f.lt (GoFloat.val 0)) = false →
        mapLookup ((ParseMediaRange s).1).params "q" = some v) := by
  refine ⟨?_, ?_, ?_, ?_⟩
  · intro hq
    simp [ParseMediaRange, h, hq, mapLookup_mapInsert_self]
  · intro v hq hA
    simp [ParseMediaRange, h, hq, hA, mapLookup_mapInsert_self]
  · intro v f hq hA hout
    simp only [ParseMediaRange, h, hq, hA]
    rw [if_pos hout]
    simp [mapLookup_mapInsert_self]
  · intro v f hq hA hout
    simp only [ParseMediaRange, h, hq, hA]
    rw [if_neg (by rw [hout]; simp)]
    exact hq

/-- Witness for the amended C4: a valid in-range q is preserved. -/
theorem q_normalization_amended_witness :
    ParseMimeType "a/b;q=0.5" = (⟨"a", "b", [("q", "0.5")]⟩, false) ∧
      mapLookup ((ParseMediaRange "a/b;q=0.5").1).params "q" = some "0.5" :=
  ⟨by decide,
    (q_normalization_amended "a/b;q=0.5" ⟨"a", "b", [("q", "0.5")]⟩ (by decide)).2.2.2 "0.5"
      (GoFloat.val (mkRat 1 2)) (by decide) (by decide) (by decide)⟩

/-- C5: parseMimeType errors exactly when the head token — the part of
the input before the first semicolon, with a bare "*" after trimming
rewritten to "*/*" — does not contain exactly one slash. -/
theorem parse_error_iff_head_slash_count (s : String) :
    (ParseMimeType s).2 = true ↔ (specHead s).countP (fun c => c == '/') ≠ 1 := by
  have hraw : rawHead s = specRawHead s := by
    simpa [rawHead, specRawHead] using ht_fst_goSplitChar ';' s.data
  have herr : (ParseMimeType s).2 = true ↔ (goSplitChar '/' (normHead s)).length ≠ 2 := by
    constructor
    · intro h hlen
      rcases hl : goSplitChar '/' (normHead s) with _ | ⟨a, _ | ⟨b, _ | ⟨c, rest⟩⟩⟩
      · rw [hl] at hlen
        simp at hlen
      · rw [hl] at hlen
        simp at hlen
      · rw [parseMimeType_ok_of_len hl] at h
        simp at h
      · rw [hl] at hlen
        simp at hlen
    · intro h
      rw [parseMimeType_err_of_len h]
  rw [herr, length_goSplitChar]
  have hnorm : (normHead s).countP (fun c => c == '/') =
      (specHead s).countP (fun c => c == '/') := by
    simp only [normHead, specHead, hraw]
    by_cases hstar : goTrim (specRawHead s) = ['*']
    · have h2 : goTrim (goToLowerL (specRawHead s)) = ['*'] := by
        rw [goTrim_goToLowerL, goToLowerL_eq_star]
        exact hstar
      simp [hstar, h2]
    · have h2 : ¬ goTrim (goToLowerL (specRawHead s)) = ['*'] := by
        rw [goTrim_goToLowerL, goToLowerL_eq_star]
        exact hstar
      simp [hstar, h2, countP_goToLowerL_slash]
  rw [hnorm]
  omega

/-- Witness for C5: "bad" has no slash in its head and indeed errors. -/
theorem parse_error_iff_head_slash_count_witness :
    (ParseMimeType "bad").2 = true :=
  (parse_error_iff_head_slash_count "bad").mpr (by decide)

/-- C6: when a compatible range attains the maximal fitness and every
compatible range before it scores strictly lower, the returned quality is
that range's q value — later equal-fitness ranges never overwrite it. -/
theorem first_max_fitness_supplies_quality (mt : String) (l1 l2 : List Mime) (r : Mime)
    (hc : mimeCompat r ((ParseMediaRange mt).1) = true)
    (hmax : ∀ x ∈ l1 ++ r :: l2, mimeCompat x ((ParseMediaRange mt).1) = true →
        rangeFitness ((ParseMediaRange mt).1) x ≤ rangeFitness ((ParseMediaRange mt).1) r)
    (hfirst : ∀ x ∈ l1, mimeCompat x ((ParseMediaRange mt).1) = true →
        rangeFitness ((ParseMediaRange mt).1) x < rangeFitness ((ParseMediaRange mt).1) r) :
    (FitnessAndQuality mt (l1 ++ r :: l2)).2 = AtofOr0 (mapLookupD r.params "q") := by
  unfold FitnessAndQuality
  set t := (ParseMediaRange mt).1 with ht2
  rw [List.foldl_append, List.foldl_cons]
  have hacc : (l1.foldl (fqStep t) (-1, GoFloat.val 0)).1 < rangeFitness t r := by
    apply foldl_fqStep_fst_lt
    · have := rangeFitness_pos t r
      omega
    · exact hfirst
  have hstep : fqStep t (l1.foldl (fqStep t) (-1, GoFloat.val 0)) r =
      (rangeFitness t r, AtofOr0 (mapLookupD r.params "q")) := by
    simp only [fqStep, hc, if_true]
    rw [if_pos hacc]
  rw [hstep]
  have hrest := foldl_fqStep_no_update t l2 (rangeFitness t r, AtofOr0 (mapLookupD r.params "q"))
    (fun x hx hcx => hmax x (by simp [hx]) hcx)
  rw [hrest]

/-- Witness for C6: of two equal-fitness text/html ranges the first one,
with q 0.7, supplies the quality. -/
theorem first_max_fitness_supplies_quality_witness :
    mimeCompat ⟨"text", "html", [("q", "0.7")]⟩ ((ParseMediaRange "text/html").1) = true ∧
      (FitnessAndQuality "text/html"
          ([] ++ ⟨"text", "html", [("q", "0.7")]⟩ :: [⟨"text", "html", [("q", "0.4")]⟩])).2 =
        AtofOr0 (mapLookupD [("q", "0.7")] "q") :=
  ⟨by decide,
    first_max_fitness_supplies_quality "text/html" [] [⟨"text", "html", [("q", "0.4")]⟩]
      ⟨"text", "html", [("q", "0.7")]⟩ (by decide) (by decide) (by decide)⟩

theorem foldl_bmStep_cases (ph : List Mime) (l : List String) (init : GoFloat × String) :
    l.foldl (bmStep ph) init = init ∨
      ((l.foldl (bmStep ph) init).2 ∈ l ∧
        GoFloat.gt (l.foldl (bmStep ph) init).1 init.1 = true) := by
  induction l generalizing init with
  | nil => left; rfl
  | cons mime rest ih =>
    rw [List.foldl_cons]
    rcases ih (bmStep ph init mime) with h | ⟨hmem, hgt⟩
    · rw [h]
      simp only [bmStep]
      split_ifs with hq
      · right
        exact ⟨by simp, by simpa using hq⟩
      · left
        rfl
    · right
      refine ⟨by simp [hmem], ?_⟩
      revert hgt
      simp only [bmStep]
      split_ifs with hq
      · intro hgt
        exact goFloat_gt_trans hgt (by simpa using hq)
      · intro hgt
        exact hgt

/-- C7 (counterexample): with the empty string among the supported types,
bestMatch returns "" although the best quality found is 1, not 0 — the
claimed equivalence fails. -/
theorem best_match_empty_supported_string :
    BestMatch [""] "*/*" = "" ∧
      (List.foldl (bmStep (ParseHeader "*/*")) (GoFloat.val 0, "") [""]).1 = GoFloat.val 1 := by
  decide

/-- C7 (amended): when no supported entry is itself the empty string,
bestMatch returns "" exactly when the best quality found over the
supported list (the empty list included) is 0, as a normal value. -/
theorem best_match_empty_iff_zero_quality (supported : List String) (header : String)
    (h : "" ∉ supported) :
    (BestMatch supported header = "") ↔
      (supported.foldl (bmStep (ParseHeader header)) (GoFloat.val 0, "")).1 = GoFloat.val 0 := by
  simp only [BestMatch]
  by_cases hemp : supported.isEmpty
  · have h0 : supported = [] := List.isEmpty_iff.mp hemp
    subst h0
    simp
  · rw [if_neg hemp]
    rcases foldl_bmStep_cases (ParseHeader header) supported (GoFloat.val 0, "")
      with hc | ⟨hmem, hgt⟩
    · rw [hc]
      simp
    · constructor
      · intro h2
        rw [h2] at hmem
        exact absurd hmem h
      · intro h1
        rw [h1] at hgt
        simp [GoFloat.gt] at hgt

/-- Witness for the amended C7 at a one-element supported list. -/
theorem best_match_empty_iff_zero_quality_witness :
    ("" ∉ ["a/b"]) ∧
      ((BestMatch ["a/b"] "x/y" = "") ↔
        (List.foldl (bmStep (ParseHeader "x/y")) (GoFloat.val 0, "") ["a/b"]).1 =
          GoFloat.val 0) :=
  ⟨by decide, best_match_empty_iff_zero_quality ["a/b"] "x/y" (by decide)⟩

/-- C8: in the RFC 2616 example header, the candidate text/html;level=1
gets quality 1: the level=1 range outscores text/html;q=0.7 and its
missing q defaults to 1. -/
theorem rfc_scenario_level1_quality_one :
    Quality "text/html;level=1"
        "text/*;q=0.3, text/html;q=0.7, text/html;level=1, text/html;level=2;q=0.4, */*;q=0.5" =
      GoFloat.val 1 := by decide

/-- C9 (counterexample): a q of "nan" survives into the returned quality,
which then lies outside the closed unit interval. -/
theorem quality_nan_outside_unit :
    Quality "a/b" "a/b;q=nan" = GoFloat.nan ∧
      inUnit (Quality "a/b" "a/b;q=nan") = false := by decide

/-- C9 (amended): for every candidate and every raw header, the returned
quality is NaN or a rational in the closed unit interval (0 when nothing
matches). -/
theorem quality_unit_interval_or_nan (mt hdr : String) :
    Quality mt hdr = GoFloat.nan ∨
      ∃ x : ℚ, Quality mt hdr = GoFloat.val x ∧ 0 ≤ x ∧ x ≤ 1 := by
  simp only [Quality, QualityParsed, FitnessAndQuality]
  rcases foldl_fqStep_snd_cases ((ParseMediaRange mt).1) (ParseHeader hdr) (-1, GoFloat.val 0)
    with h | ⟨r, hr, he⟩
  · right
    exact ⟨0, by rw [h], le_refl 0, by norm_num⟩
  · rw [he]
    obtain ⟨piece, rfl⟩ := mem_parseHeader hr
    exact q_of_parseMediaRange piece

/-- C10 (counterexample): with the header ",*/*;q=0.5" (a malformed first
entry followed by a wildcard range), the malformed candidate "bad" gets
fitness 111 with quality 0 from the sentinel entry — not the wildcard
range's quality 0.5. -/
theorem malformed_candidate_quality_not_wildcard :
    FitnessAndQuality "bad" (ParseHeader ",*/*;q=0.5") = (111, GoFloat.val 0) ∧
      AtofOr0 (mapLookupD ((ParseHeader ",*/*;q=0.5").getD 1 default).params "q") =
        GoFloat.val (mkRat 1 2) ∧
      GoFloat.val 0 ≠ GoFloat.val (mkRat 1 2) := by decide

/-- C10 (amended): a candidate whose head lacks exactly one slash is
parsed, with the error dropped, into the sentinel with empty types; it is
judged compatible with every fully wildcard range in the list, and the
returned fitness is at least 1 — but the returned quality is that of the
best-fitness compatible range, not necessarily the wildcard one. -/
theorem malformed_candidate_wildcard_compat (c : String)
    (hbad : (goSplitChar '/' (normHead c)).length ≠ 2) (l1 l2 : List Mime) (r : Mime)
    (hm : r.mtype = "*") (hs : r.subtype = "*") :
    mimeCompat r ((ParseMediaRange c).1) = true ∧
      1 ≤ (FitnessAndQuality c (l1 ++ r :: l2)).1 := by
  have hpm := parseMediaRange_err_of_len hbad
  have hcomp : mimeCompat r ((ParseMediaRange c).1) = true := by
    rw [hpm]
    simp only [mimeCompat, hm, hs]
    decide
  refine ⟨hcomp, ?_⟩
  unfold FitnessAndQuality
  set t := (ParseMediaRange c).1 with ht2
  rw [List.foldl_append, List.foldl_cons]
  have h1 : 1 ≤ (fqStep t (l1.foldl (fqStep t) (-1, GoFloat.val 0)) r).1 := by
    simp only [fqStep, hcomp, if_true]
    split_ifs with h2
    · exact rangeFitness_pos t r
    · have := rangeFitness_pos t r
      omega
  calc (1 : ℤ) ≤ _ := h1
    _ ≤ _ := foldl_fqStep_fst_le t l2 _

/-- Witness for the amended C10 at the candidate "bad" and a lone
wildcard range. -/
theorem malformed_candidate_wildcard_compat_witness :
    (goSplitChar '/' (normHead "bad")).length ≠ 2 ∧
      (mimeCompat ⟨"*", "*", [("q", "0.5")]⟩ ((ParseMediaRange "bad").1) = true ∧
        1 ≤ (FitnessAndQuality "bad" ([] ++ ⟨"*", "*", [("q", "0.5")]⟩ :: [])).1) :=
  ⟨by decide,
    malformed_candidate_wildcard_compat "bad" (by decide) [] [] ⟨"*", "*", [("q", "0.5")]⟩
      rfl rfl⟩

end Mimeparse
